import Mathlib

/-!
Verification of the invitation-code lifecycle, registration transaction,
session tokens, and account filtering of the portfolio-tracker backend
(`backend/server.js`), as a shallow embedding in Lean 4.

Timestamps are modelled as natural numbers; the JavaScript comparison
`new Date() > new Date(t)` becomes `now > t` on `Nat`.  Database rows are
Lean structures, tables are lists of rows, and each HTTP handler becomes a
pure function from the database state (plus the request fields and the
current time) to a new state and a response.
-/

namespace PortfolioTracker

/-- A row of the `users` table (`CREATE TABLE users` in `createTables`):
`id SERIAL`, `email UNIQUE NOT NULL`, `password_hash NOT NULL`,
`created_at`. -/
structure User where
  id : Nat
  email : String
  password_hash : String
  created_at : Nat
  deriving DecidableEq, Repr

/-- A row of the `invitation_codes` table (`CREATE TABLE invitation_codes`):
`id SERIAL`, `code UNIQUE NOT NULL`, `email NOT NULL`,
`used BOOLEAN DEFAULT FALSE`, `used_by REFERENCES users(id)`, `created_at`,
`used_at`, `expires_at` (nullable). -/
structure Invitation where
  id : Nat
  code : String
  email : String
  used : Bool
  used_by : Option Nat
  created_at : Nat
  used_at : Option Nat
  expires_at : Option Nat
  deriving DecidableEq, Repr

/-- The relational store as the registration flow sees it: the `users` and
`invitation_codes` tables, plus the `SERIAL` sequences that supply fresh ids. -/
structure DBState where
  users : List User
  invitations : List Invitation
  nextUserId : Nat
  nextInvId : Nat
  deriving DecidableEq, Repr

/-- The empty database right after `createTables`: both tables empty,
both `SERIAL` sequences at 1. -/
def initState : DBState := ⟨[], [], 1, 1⟩

/-- `SELECT * FROM invitation_codes WHERE code = $1`: since `code` is
`UNIQUE`, the first (only) row with that code, if any. -/
def findInvitation (db : DBState) (code : String) : Option Invitation :=
  db.invitations.find? (fun inv => inv.code = code)

/-- `bcrypt.hash(password, 12)`: an injective stand-in for the hash; the
hashing primitive is an external library and no claim depends on its
internals. -/
def bcryptHash (password : String) : String :=
  "$2b$12$" ++ password

/-- Outcomes of the `validateInvitation` middleware, each corresponding to
one early `return res.status(400).json(...)`. -/
inductive VErr where
  /-- `if (!invitationCode)` → 400 `Invitation code required`. -/
  | missingCode
  /-- no row found → 400 `Invalid invitation code`. -/
  | invalid
  /-- `if (invitation.used)` → 400 `Invitation code already used`. -/
  | alreadyUsed
  /-- `invitation.expires_at && now > expires_at` → 400 `Invitation code has expired`. -/
  | expired
  deriving DecidableEq, Repr

/-- The `validateInvitation` middleware (`backend/server.js` lines 100-136).
The request field `invitationCode` is `Option String`; JavaScript treats the
empty string as falsy, so `none` and `some ""` both fail the
`if (!invitationCode)` guard.  On success the found row is handed on as
`req.invitation`. -/
def validateInvitation (db : DBState) (invitationCode : Option String)
    (now : Nat) : Except VErr Invitation :=
  match invitationCode with
  | none => .error .missingCode
  | some c =>
    if c.isEmpty then .error .missingCode
    else
      match findInvitation db c with
      | none => .error .invalid
      | some inv =>
        if inv.used then .error .alreadyUsed
        else
          match inv.expires_at with
          | some t => if now > t then .error .expired else .ok inv
          | none => .ok inv

/-- Errors of the full redemption validation: the middleware's four cases
plus the register handler's own `email !== req.invitation.email` check. -/
inductive RedeemErr where
  | missingCode
  | invalid
  | alreadyUsed
  | expired
  /-- `if (email !== req.invitation.email)` → 400 `Email does not match invitation`. -/
  | emailMismatch
  deriving DecidableEq, Repr

/-- Lift a middleware error into the redemption-error type. -/
def VErr.toRedeemErr : VErr → RedeemErr
  | .missingCode => .missingCode
  | .invalid => .invalid
  | .alreadyUsed => .alreadyUsed
  | .expired => .expired

/-- The spec's `validateForRedemption(code, email)`: exactly what a
`POST /api/register` request passes through before the transaction begins —
the `validateInvitation` middleware followed by the handler's
`email !== req.invitation.email` check (`backend/server.js` lines 100-136
and 160-163). -/
def validateForRedemption (db : DBState) (invitationCode : Option String)
    (email : String) (now : Nat) : Except RedeemErr Invitation :=
  match validateInvitation db invitationCode now with
  | .error e => .error e.toRedeemErr
  | .ok inv =>
    if email ≠ inv.email then .error .emailMismatch else .ok inv

/-- A fault injected into the registration transaction, standing for a
database error thrown by one of the two statements between `BEGIN` and
`COMMIT` (other than the unique-email violation, which is modelled
directly from the `users` table). -/
inductive RegFault where
  /-- the `INSERT INTO users` statement throws. -/
  | userInsertFails
  /-- the `UPDATE invitation_codes` statement throws. -/
  | invUpdateFails
  deriving DecidableEq, Repr

/-- Responses of `POST /api/register` (`backend/server.js` lines 156-217). -/
inductive RegResult where
  /-- 201 `Registration successful` with a token for the new user. -/
  | success (userId : Nat) (email : String)
  /-- one of the five 400 validation errors before the transaction. -/
  | badRequest (e : RedeemErr)
  /-- unique-constraint violation `23505` → 400 `Email already registered`. -/
  | emailTaken
  /-- any other thrown error → 500 `Registration failed`. -/
  | serverError
  deriving DecidableEq, Repr

/-- Whether some `users` row already carries this email — the condition
under which an `INSERT INTO users` raises the unique-constraint violation
`23505` (`email VARCHAR(255) UNIQUE NOT NULL`). -/
def emailTaken (db : DBState) (e : String) : Bool :=
  db.users.any (fun u => u.email = e)

/-- Mark one row of `invitation_codes` used:
`UPDATE invitation_codes SET used = TRUE, used_by = $1, used_at = NOW()
WHERE id = $2`. -/
def markUsed (invs : List Invitation) (invId userId now : Nat) :
    List Invitation :=
  invs.map (fun inv =>
    if inv.id = invId then
      { inv with used := true, used_by := some userId, used_at := some now }
    else inv)

/-- The `POST /api/register` handler (`backend/server.js` lines 156-217):
the `validateInvitation` middleware, the email-match check, then a
transaction that inserts the user and marks the invitation used.  `ROLLBACK`
on any failure inside the transaction returns the original state; the
unique-email violation (`error.code === '23505'`) maps to 400
`Email already registered`, any other fault to 500. -/
def register (db : DBState) (email password : String)
    (invitationCode : Option String) (now : Nat) (fault : Option RegFault) :
    DBState × RegResult :=
  match validateForRedemption db invitationCode email now with
  | .error e => (db, .badRequest e)
  | .ok inv =>
    -- BEGIN
    if fault = some .userInsertFails then
      (db, .serverError)                -- ROLLBACK, outer catch → 500
    else if emailTaken db email then
      (db, .emailTaken)                 -- 23505 on INSERT, ROLLBACK → 400
    else if fault = some .invUpdateFails then
      (db, .serverError)                -- ROLLBACK, outer catch → 500
    else
      -- INSERT the user, UPDATE the invitation, COMMIT
      ({ db with
         users := db.users ++ [⟨db.nextUserId, email, bcryptHash password, now⟩],
         invitations := markUsed db.invitations inv.id db.nextUserId now,
         nextUserId := db.nextUserId + 1 },
       .success db.nextUserId email)

/-- Responses of the public `POST /api/verify-invitation` endpoint
(`backend/server.js` lines 495-540). -/
inductive VerifyResp where
  /-- `if (!invitationCode)` → 400 `Invitation code required`. -/
  | badRequest
  /-- no row found → 404 `{valid:false, error:'Invalid invitation code'}`. -/
  | notFound
  /-- `invitation.used` → 409 `{valid:false, error:'Invitation code already used'}`. -/
  | conflictUsed
  /-- expired → 410 `{valid:false, error:'Invitation code has expired'}`. -/
  | goneExpired
  /-- 200 `{valid:true, emailDomain: invitation.email.split('@')[1]}`. -/
  | okValid (emailDomain : Option String)
  deriving DecidableEq, Repr

/-- JavaScript `String.prototype.split` with a one-character separator:
the list of segments between occurrences of `sep` (an empty input gives one
empty segment, like `''.split('@') === ['']`). -/
def splitOnChar (sep : Char) : List Char → List (List Char)
  | [] => [[]]
  | c :: cs =>
    match splitOnChar sep cs with
    | [] => if c = sep then [[], [c]] else [[c]]
    | r :: rs => if c = sep then [] :: r :: rs else (c :: r) :: rs

/-- `invitation.email.split('@')[1]`: the segment after the first `@`,
or nothing when the email has no `@` (JavaScript `undefined`). -/
def emailDomain (email : String) : Option String :=
  ((splitOnChar '@' email.data).map (fun l => String.mk l))[1]?

/-- The `POST /api/verify-invitation` handler (`backend/server.js`
lines 495-540): lookup, then `used`, then expiry, in that order; on success
200 with the domain of the bound email. -/
def verifyInvitation (db : DBState) (invitationCode : Option String)
    (now : Nat) : VerifyResp :=
  match invitationCode with
  | none => .badRequest
  | some c =>
    if c.isEmpty then .badRequest
    else
      match findInvitation db c with
      | none => .notFound
      | some inv =>
        if inv.used then .conflictUsed
        else
          match inv.expires_at with
          | some t => if now > t then .goneExpired else .okValid (emailDomain inv.email)
          | none => .okValid (emailDomain inv.email)

/-- Responses of `POST /api/admin/invitations` (creation,
`backend/server.js` lines 459-492). -/
inductive CreateResp where
  /-- wrong or missing `x-admin-key` → 401. -/
  | unauthorized
  /-- `if (!code || !email)` → 400 `Code and email are required`. -/
  | badRequest
  /-- unique-code violation `23505` → 400 `Invitation code already exists`. -/
  | duplicateCode
  /-- 201 `Invitation code created`, returning the new row. -/
  | created (inv : Invitation)
  deriving DecidableEq, Repr

/-- The row `INSERT INTO invitation_codes (code, email, expires_at)` creates:
the supplied fields plus the table defaults `used = FALSE`,
`used_by = NULL`, `used_at = NULL`.  One day is modelled as 86400000 ms,
matching `Date.setDate`. -/
def newInvitation (db : DBState) (c e : String) (expiresInDays now : Nat) :
    Invitation :=
  { id := db.nextInvId, code := c, email := e, used := false,
    used_by := none, created_at := now, used_at := none,
    expires_at := some (now + expiresInDays * 86400000) }

/-- The `POST /api/admin/invitations` handler (`backend/server.js` lines
459-492): after the admin-key check, insert a new invitation with
`expires_at` set `expiresInDays` days out, rejecting a duplicate code
(`23505`). -/
def adminCreateInvitation (db : DBState) (adminKeyOk : Bool)
    (code email : Option String) (expiresInDays : Nat) (now : Nat) :
    DBState × CreateResp :=
  if ¬ adminKeyOk then (db, .unauthorized)
  else
    match code, email with
    | some c, some e =>
      if c.isEmpty ∨ e.isEmpty then (db, .badRequest)
      else if db.invitations.any (fun inv => inv.code = c) then
        (db, .duplicateCode)            -- UNIQUE(code) violation 23505
      else
        ({ db with
           invitations := db.invitations ++ [newInvitation db c e expiresInDays now],
           nextInvId := db.nextInvId + 1 },
         .created (newInvitation db c e expiresInDays now))
    | _, _ => (db, .badRequest)

/-- The payload `{ userId, email }` that `jwt.sign` is called with in the
register and login handlers. -/
structure JwtPayload where
  userId : Nat
  email : String
  deriving DecidableEq, Repr

/-- Modelled from the spec: the Session Issuer's token (spec §4.3); the
signing and verification mechanics live in the external `jsonwebtoken`
library, not in this repository.  A token is either one produced by
`issue` — payload, issue time, validity window, signing secret — or an
arbitrary malformed/forged string. -/
inductive Token where
  | signed (payload : JwtPayload) (iat : Nat) (validity : Nat) (secret : String)
  | malformed (raw : String)
  deriving DecidableEq, Repr

/-- Errors of token verification (spec §4.3 `verify`): malformed/unsigned
→ INVALID, past the validity window → EXPIRED.  MISSING is handled by
`authenticateToken` before verification. -/
inductive JwtErr where
  | invalid
  | expired
  deriving DecidableEq, Repr

/-- Modelled from the spec: `verify(token)` of the Session Issuer
(spec §4.3), the semantics of `jwt.verify`: reject a malformed token or a
wrong-secret signature as INVALID, a token past `iat + validity` as
EXPIRED, and otherwise return the signed payload unchanged. -/
def jwtVerify (t : Token) (secret : String) (now : Nat) :
    Except JwtErr JwtPayload :=
  match t with
  | .malformed _ => .error .invalid
  | .signed p iat validity s =>
    if s ≠ secret then .error .invalid
    else if iat + validity ≤ now then .error .expired
    else .ok p

/-- The 7-day validity window passed as `{ expiresIn: '7d' }` to `jwt.sign`
in the register and login handlers, in seconds as `jsonwebtoken` counts it. -/
def sevenDays : Nat := 7 * 24 * 60 * 60

/-- Modelled from the spec: `issue(userId, email)` of the Session Issuer
(spec §4.3), as called at `backend/server.js` lines 190-194:
`jwt.sign({ userId, email }, JWT_SECRET, { expiresIn: '7d' })`. -/
def issueToken (userId : Nat) (email : String) (secret : String)
    (now : Nat) : Token :=
  .signed ⟨userId, email⟩ now sevenDays secret

/-- Outcome of the `authenticateToken` middleware: which response is sent,
or that the protected handler runs with `req.user` set. -/
inductive AuthOutcome where
  /-- 401 `Access token required`. -/
  | respond401
  /-- 403 `Invalid token`. -/
  | respond403
  /-- `next()` — the protected handler runs as this user. -/
  | proceed (userId : Nat) (email : String)
  deriving DecidableEq, Repr

/-- The `authenticateToken` middleware (`backend/server.js` lines 138-153).
`token` is `authHeader && authHeader.split(' ')[1]`: `none` when the
`Authorization` header is absent or has no second word.  A missing token
gets 401; a token `jwt.verify` rejects (malformed, unsigned, or expired)
gets 403; otherwise the handler runs. -/
def authenticateToken (token : Option Token) (secret : String) (now : Nat) :
    AuthOutcome :=
  match token with
  | none => .respond401
  | some t =>
    match jwtVerify t secret now with
    | .error _ => .respond403
    | .ok p => .proceed p.userId p.email

/-- An account object returned by the aggregator's `accountsGet`; only the
`subtype` field is inspected by the backend, `account_id` stands for the
rest of the object. -/
structure PlaidAccount where
  account_id : String
  subtype : Option String
  deriving DecidableEq, Repr

/-- The subtype whitelist of `GET /api/accounts`:
`['investment', 'brokerage', 'ira', '401k']`. -/
def investmentSubtypes : List String :=
  ["investment", "brokerage", "ira", "401k"]

/-- The body of `GET /api/accounts` (`backend/server.js` lines 298-324)
after authentication: concatenate the accounts fetched for each stored
aggregator token, then keep those whose `subtype` is in the whitelist
(`allAccounts.filter(account => [...].includes(account.subtype))`; a `null`
subtype never matches). -/
def accountsResponse (fetched : List (List PlaidAccount)) :
    List PlaidAccount :=
  (fetched.flatten).filter (fun a =>
    match a.subtype with
    | some s => investmentSubtypes.contains s
    | none => false)

/-- The server operations that can touch or read the `invitation_codes`
table: administrative creation, registration (with an optional injected
transaction fault), the public verify endpoint, and the admin listing.
The remaining endpoints (login, the aggregator proxies) never touch the
table. -/
inductive Op where
  | adminCreate (adminKeyOk : Bool) (code email : Option String)
      (expiresInDays : Nat) (now : Nat)
  | register (email password : String) (invitationCode : Option String)
      (now : Nat) (fault : Option RegFault)
  | verifyInv (invitationCode : Option String) (now : Nat)
  | adminList (adminKeyOk : Bool) (now : Nat)
  deriving DecidableEq, Repr

/-- The response of a single operation, for stating which operations
succeed. -/
inductive OpResult where
  | createResp (r : CreateResp)
  | regResp (r : RegResult)
  | verifyResp (r : VerifyResp)
  | listResp
  deriving DecidableEq, Repr

/-- Run one operation against the database.  `GET /api/admin/invitations`
only `SELECT`s, so it returns the state unchanged. -/
def runOp (op : Op) (db : DBState) : DBState × OpResult :=
  match op with
  | .adminCreate ok c e d now =>
    ((adminCreateInvitation db ok c e d now).1,
     .createResp (adminCreateInvitation db ok c e d now).2)
  | .register e p c now fault =>
    ((register db e p c now fault).1,
     .regResp (register db e p c now fault).2)
  | .verifyInv c now => (db, .verifyResp (verifyInvitation db c now))
  | .adminList _ _ => (db, .listResp)

/-- Database states reachable from the freshly initialised database by
runs of the server's operations. -/
inductive Reachable : DBState → Prop where
  | init : Reachable initState
  | step {db : DBState} (op : Op) : Reachable db → Reachable (runOp op db).1

/-- The per-row part of the invitation invariant: `used_by` and `used_at`
are set exactly when `used` is true. -/
def UsedConsistent (inv : Invitation) : Prop :=
  inv.used_by.isSome = inv.used ∧ inv.used_at.isSome = inv.used

/-- Bookkeeping invariant of the `invitation_codes` table: rows carry
distinct ids, all below the `SERIAL` sequence value, and each row satisfies
`UsedConsistent`. -/
def InvTableWF (db : DBState) : Prop :=
  (∀ inv ∈ db.invitations, UsedConsistent inv) ∧
  (db.invitations.map Invitation.id).Nodup ∧
  (∀ inv ∈ db.invitations, inv.id < db.nextInvId)

/-- The stage of one in-flight `POST /api/register` request in the
concurrent model: not yet past the middleware, past the pre-transaction
checks (holding the invitation row it read, the handler's
`req.invitation`), or finished with/without a 201. -/
inductive Phase where
  | ready
  | validated (inv : Invitation)
  | doneSuccess
  | doneFail
  deriving DecidableEq, Repr

/-- The shared database plus the stage of each of the concurrent requests. -/
structure ConcState where
  db : DBState
  phases : List Phase
  deriving DecidableEq, Repr

/-- An interleaving semantics for concurrent `POST /api/register` requests
that all carry the same invitation `code`; request `i` supplies email
`emails i` and password `pwds i`.  Each request executes two atomic events
against the shared store, in order:

* `validate` — everything before `BEGIN`: the `validateInvitation`
  middleware's single `SELECT` plus the handler's email-match check.  On
  failure the request is done (a 400); on success it holds the row it read
  as `req.invitation`.
* `commitFail` / `commitOk` — the whole transaction `BEGIN .. COMMIT`,
  which the database serializes: under `READ COMMITTED` no other request
  observes its intermediate state, and the `UNIQUE(email)` index decides
  the `INSERT INTO users` atomically at commit order.  If the email is
  already present the insert raises `23505` and the transaction rolls back
  (`commitFail`); otherwise the user row is inserted and the invitation row
  whose id was snapshotted at validation is marked used (the handler's
  unconditional `UPDATE .. WHERE id = $2`), and the transaction commits
  (`commitOk`). -/
inductive CStep (code : String) (emails pwds : Nat → String) (now : Nat) :
    ConcState → ConcState → Prop where
  | validate (cs : ConcState) (i : Nat)
      (hph : cs.phases[i]? = some .ready) :
      CStep code emails pwds now cs
        { cs with
          phases := cs.phases.set i
            (match validateForRedemption cs.db (some code) (emails i) now with
              | .ok inv => .validated inv
              | .error _ => .doneFail) }
  | commitFail (cs : ConcState) (i : Nat) (inv : Invitation)
      (hph : cs.phases[i]? = some (.validated inv))
      (hdup : emailTaken cs.db (emails i) = true) :
      CStep code emails pwds now cs
        { cs with phases := cs.phases.set i .doneFail }
  | commitOk (cs : ConcState) (i : Nat) (inv : Invitation)
      (hph : cs.phases[i]? = some (.validated inv))
      (hdup : emailTaken cs.db (emails i) = false) :
      CStep code emails pwds now cs
        { db :=
            { cs.db with
              users := cs.db.users ++
                [⟨cs.db.nextUserId, emails i, bcryptHash (pwds i), now⟩],
              invitations :=
                markUsed cs.db.invitations inv.id cs.db.nextUserId now,
              nextUserId := cs.db.nextUserId + 1 },
          phases := cs.phases.set i .doneSuccess }

/-- `n` concurrent requests about to start against database `db`. -/
def ConcState.start (db : DBState) (n : Nat) : ConcState :=
  ⟨db, List.replicate n .ready⟩

/-- States reachable by interleaving the `n` concurrent requests. -/
inductive CReach (code : String) (emails pwds : Nat → String) (now : Nat)
    (db0 : DBState) (n : Nat) : ConcState → Prop where
  | start : CReach code emails pwds now db0 n (ConcState.start db0 n)
  | step {cs cs' : ConcState} :
      CReach code emails pwds now db0 n cs →
      CStep code emails pwds now cs cs' →
      CReach code emails pwds now db0 n cs'

/-- How many of the concurrent requests have answered 201. -/
def successCount (cs : ConcState) : Nat :=
  (cs.phases.filter (fun p => p = .doneSuccess)).length

/-- How many have answered an error. -/
def failCount (cs : ConcState) : Nat :=
  (cs.phases.filter (fun p => p = .doneFail)).length

/-- Inductive invariant of the concurrent runs against one invitation row
`inv0`: the phase list keeps its length `n`; the code still resolves to a
row with `inv0`'s id, bound email, and expiry, whose `used` flag tracks
whether the bound email has reached the `users` table; the number of 201
answers is 0 before that insertion and 1 after; a finished failing request
implies the email is taken; and every `req.invitation` snapshot held by a
validated request carries `inv0`'s row id. -/
def ConcInv (code : String) (inv0 : Invitation) (n : Nat)
    (cs : ConcState) : Prop :=
  cs.phases.length = n ∧
  (∃ r, findInvitation cs.db code = some r ∧ r.id = inv0.id ∧
    r.email = inv0.email ∧ r.expires_at = inv0.expires_at ∧
    r.used = emailTaken cs.db inv0.email) ∧
  successCount cs = (if emailTaken cs.db inv0.email then 1 else 0) ∧
  (∀ i : Nat, ∀ p, cs.phases[i]? = some p →
    (p = Phase.doneFail → emailTaken cs.db inv0.email = true) ∧
    (∀ s, p = Phase.validated s → s.id = inv0.id))

/-! ### Invariant lemmas for the invitation table -/

theorem markUsed_map_id (invs : List Invitation) (invId uid now : Nat) :
    (markUsed invs invId uid now).map Invitation.id = invs.map Invitation.id := by
  unfold markUsed
  rw [List.map_map]
  apply List.map_congr_left
  intro inv _
  by_cases h : inv.id = invId <;> simp [h]

theorem mem_markUsed {invs : List Invitation} {invId uid now : Nat}
    {inv' : Invitation} (h : inv' ∈ markUsed invs invId uid now) :
    ∃ inv ∈ invs,
      inv' = if inv.id = invId then
        { inv with used := true, used_by := some uid, used_at := some now }
      else inv := by
  unfold markUsed at h
  obtain ⟨inv, hmem, heq⟩ := List.mem_map.mp h
  exact ⟨inv, hmem, heq.symm⟩

/-- `adminCreateInvitation` either leaves the state unchanged (and does not
answer 201) or appends exactly the fresh default row. -/
theorem adminCreate_cases (db : DBState) (ok : Bool) (c e : Option String)
    (d now : Nat) :
    ((adminCreateInvitation db ok c e d now).1 = db ∧
      ∀ inv, (adminCreateInvitation db ok c e d now).2 ≠ .created inv) ∨
    (∃ cs es, c = some cs ∧ e = some es ∧
      adminCreateInvitation db ok c e d now =
        ({ db with invitations := db.invitations ++ [newInvitation db cs es d now],
                   nextInvId := db.nextInvId + 1 },
         .created (newInvitation db cs es d now))) := by
  unfold adminCreateInvitation
  split
  · exact Or.inl ⟨rfl, by simp⟩
  · match c, e with
    | some cs, some es =>
      simp only
      split
      · exact Or.inl ⟨rfl, by simp⟩
      · split
        · exact Or.inl ⟨rfl, by simp⟩
        · exact Or.inr ⟨cs, es, rfl, rfl, rfl⟩
    | none, some es => exact Or.inl ⟨rfl, by simp⟩
    | some cs, none => exact Or.inl ⟨rfl, by simp⟩
    | none, none => exact Or.inl ⟨rfl, by simp⟩

/-- `register` either rolls back to the unchanged state (and does not answer
201) or commits: it appends the one new user row and marks the validated
invitation used. -/
theorem register_cases (db : DBState) (e p : String) (c : Option String)
    (now : Nat) (fault : Option RegFault) :
    ((register db e p c now fault).1 = db ∧
      ∀ uid em, (register db e p c now fault).2 ≠ .success uid em) ∨
    (∃ inv, validateForRedemption db c e now = .ok inv ∧
      fault = none ∧ emailTaken db e = false ∧
      register db e p c now fault =
        ({ db with
           users := db.users ++ [⟨db.nextUserId, e, bcryptHash p, now⟩],
           invitations := markUsed db.invitations inv.id db.nextUserId now,
           nextUserId := db.nextUserId + 1 },
         .success db.nextUserId e)) := by
  unfold register
  cases hv : validateForRedemption db c e now with
  | error err => exact Or.inl ⟨rfl, by simp⟩
  | ok inv =>
    simp only
    split
    · exact Or.inl ⟨rfl, by simp⟩
    next hf1 =>
      split
      next hdup =>
        exact Or.inl ⟨rfl, by simp⟩
      next hdup =>
        split
        · exact Or.inl ⟨rfl, by simp⟩
        next hf2 =>
          refine Or.inr ⟨inv, rfl, ?_, ?_, rfl⟩
          · cases fault with
            | none => rfl
            | some f => cases f <;> simp_all
          · simpa using hdup

theorem wf_runOp (db : DBState) (op : Op) (hwf : InvTableWF db) :
    InvTableWF (runOp op db).1 := by
  obtain ⟨hused, hnodup, hlt⟩ := hwf
  cases op with
  | adminCreate ok c e d now =>
    show InvTableWF (adminCreateInvitation db ok c e d now).1
    rcases adminCreate_cases db ok c e d now with ⟨hs, -⟩ | ⟨cs, es, -, -, hs⟩
    · rw [hs]; exact ⟨hused, hnodup, hlt⟩
    · rw [hs]
      dsimp only
      refine ⟨?_, ?_, ?_⟩
      · intro inv hmem
        rcases List.mem_append.mp hmem with h | h
        · exact hused inv h
        · simp only [List.mem_singleton] at h
          subst h
          exact ⟨rfl, rfl⟩
      · rw [List.map_append, List.nodup_append]
        refine ⟨hnodup, List.nodup_singleton _, ?_⟩
        intro a ha hb
        simp only [List.map_cons, List.map_nil, List.mem_singleton] at hb
        subst hb
        obtain ⟨inv, hmem, hid⟩ := List.mem_map.mp ha
        have := hlt inv hmem
        simp only [newInvitation] at hid
        omega
      · intro inv hmem
        rcases List.mem_append.mp hmem with h | h
        · have := hlt inv h
          show inv.id < db.nextInvId + 1
          omega
        · simp only [List.mem_singleton] at h
          subst h
          show (newInvitation db cs es d now).id < db.nextInvId + 1
          simp [newInvitation]
  | register e p c now fault =>
    show InvTableWF (register db e p c now fault).1
    rcases register_cases db e p c now fault with ⟨hs, -⟩ | ⟨inv, -, -, -, hs⟩
    · rw [hs]; exact ⟨hused, hnodup, hlt⟩
    · rw [hs]
      dsimp only
      refine ⟨?_, ?_, ?_⟩
      · intro inv' hmem
        obtain ⟨inv0, hmem0, heq⟩ := mem_markUsed hmem
        subst heq
        split
        · exact ⟨rfl, rfl⟩
        · exact hused inv0 hmem0
      · rw [markUsed_map_id]
        exact hnodup
      · intro inv' hmem
        obtain ⟨inv0, hmem0, heq⟩ := mem_markUsed hmem
        have := hlt inv0 hmem0
        subst heq
        split <;> simpa
  | verifyInv c now => exact ⟨hused, hnodup, hlt⟩
  | adminList ok now => exact ⟨hused, hnodup, hlt⟩

theorem reachable_wf {db : DBState} (h : Reachable db) : InvTableWF db := by
  induction h with
  | init =>
    refine ⟨?_, ?_, ?_⟩ <;> simp [initState]
  | step op _ ih => exact wf_runOp _ op ih

/-! ### Characterization of the validation chain -/

theorem validateInvitation_not_found {db : DBState} {c : String} {now : Nat}
    (hc : c.isEmpty = false) (h : findInvitation db c = none) :
    validateInvitation db (some c) now = .error .invalid := by
  simp [validateInvitation, hc, h]

theorem validateInvitation_used {db : DBState} {c : String} {now : Nat}
    {inv : Invitation} (hc : c.isEmpty = false)
    (h : findInvitation db c = some inv) (hu : inv.used = true) :
    validateInvitation db (some c) now = .error .alreadyUsed := by
  simp [validateInvitation, hc, h, hu]

theorem validateInvitation_expired {db : DBState} {c : String} {now : Nat}
    {inv : Invitation} {t : Nat} (hc : c.isEmpty = false)
    (h : findInvitation db c = some inv) (hu : inv.used = false)
    (ht : inv.expires_at = some t) (hpast : t < now) :
    validateInvitation db (some c) now = .error .expired := by
  simp [validateInvitation, hc, h, hu, ht, hpast]

theorem validateInvitation_ok {db : DBState} {c : String} {now : Nat}
    {inv : Invitation} (hc : c.isEmpty = false)
    (h : findInvitation db c = some inv) (hu : inv.used = false)
    (ht : ∀ t, inv.expires_at = some t → now ≤ t) :
    validateInvitation db (some c) now = .ok inv := by
  unfold validateInvitation
  simp only [hc, Bool.false_eq_true, if_false, h, hu]
  cases hx : inv.expires_at with
  | none => simp
  | some t =>
    have := ht t hx
    simp [Nat.not_lt.mpr this]

theorem validateForRedemption_of_validate_error {db : DBState}
    {c : Option String} {email : String} {now : Nat} {e : VErr}
    (h : validateInvitation db c now = .error e) :
    validateForRedemption db c email now = .error e.toRedeemErr := by
  simp [validateForRedemption, h]

theorem validateForRedemption_mismatch {db : DBState} {c : Option String}
    {email : String} {now : Nat} {inv : Invitation}
    (h : validateInvitation db c now = .ok inv) (hne : inv.email ≠ email) :
    validateForRedemption db c email now = .error .emailMismatch := by
  simp [validateForRedemption, h, Ne.symm hne]

theorem validateForRedemption_ok {db : DBState} {c : Option String}
    {email : String} {now : Nat} {inv : Invitation}
    (h : validateInvitation db c now = .ok inv) (he : inv.email = email) :
    validateForRedemption db c email now = .ok inv := by
  simp [validateForRedemption, h, he]

theorem validateInvitation_ok_find {db : DBState} {c : String} {now : Nat}
    {s : Invitation} (h : validateInvitation db (some c) now = .ok s) :
    findInvitation db c = some s := by
  unfold validateInvitation at h
  simp only at h
  split at h
  · exact Except.noConfusion h
  · split at h
    · exact Except.noConfusion h
    next inv0 heq =>
      split at h
      · exact Except.noConfusion h
      · split at h
        · split at h
          · exact Except.noConfusion h
          · rw [heq]
            injection h with h
            rw [h]
        · rw [heq]
          injection h with h
          rw [h]

theorem validateForRedemption_ok_find {db : DBState} {c : String} {e : String}
    {now : Nat} {s : Invitation}
    (h : validateForRedemption db (some c) e now = .ok s) :
    findInvitation db c = some s ∧ s.email = e := by
  unfold validateForRedemption at h
  cases hv : validateInvitation db (some c) now with
  | error err => rw [hv] at h; exact Except.noConfusion h
  | ok inv0 =>
    rw [hv] at h
    dsimp only at h
    split at h
    · exact Except.noConfusion h
    next hne =>
      injection h with h
      subst h
      exact ⟨validateInvitation_ok_find hv, (not_ne_iff.mp hne).symm⟩

/-! ### Claim theorems: account filtering, tokens, authentication -/

/-- C10: every account object in the `GET /api/accounts` response has a
subtype among `investment`, `brokerage`, `ira`, `401k`, and any account
fetched from the aggregator with a different (or missing) subtype is
filtered out of the response. -/
theorem accounts_only_investment_subtypes
    (fetched : List (List PlaidAccount)) (a : PlaidAccount) :
    a ∈ accountsResponse fetched ↔
      a ∈ fetched.flatten ∧ ∃ s, a.subtype = some s ∧ s ∈ investmentSubtypes := by
  unfold accountsResponse
  rw [List.mem_filter]
  constructor
  · rintro ⟨hmem, hp⟩
    refine ⟨hmem, ?_⟩
    cases hs : a.subtype with
    | none => rw [hs] at hp; exact Bool.noConfusion hp
    | some s =>
      rw [hs] at hp
      exact ⟨s, rfl, by simpa using hp⟩
  · rintro ⟨hmem, s, hs, hin⟩
    exact ⟨hmem, by rw [hs]; simpa using hin⟩

/-- C5: verifying a token produced by `issue(userId, email)` before the
7-day validity window elapses returns exactly the same `{userId, email}`,
and verifying it once the window has elapsed returns an EXPIRED error. -/
theorem token_roundtrip (userId : Nat) (email secret : String) (t0 now : Nat) :
    (now < t0 + sevenDays →
      jwtVerify (issueToken userId email secret t0) secret now =
        .ok ⟨userId, email⟩) ∧
    (t0 + sevenDays ≤ now →
      jwtVerify (issueToken userId email secret t0) secret now =
        .error .expired) := by
  constructor
  · intro h
    simp [jwtVerify, issueToken, Nat.not_le.mpr h]
  · intro h
    simp [jwtVerify, issueToken, h]

/-- C5 witness: issue at time 0; verification at time 3 returns the
payload, verification at time `sevenDays` returns EXPIRED. -/
theorem token_roundtrip_witness :
    jwtVerify (issueToken 7 "a@x.com" "secret" 0) "secret" 3 =
      .ok ⟨7, "a@x.com"⟩ ∧
    jwtVerify (issueToken 7 "a@x.com" "secret" 0) "secret" sevenDays =
      .error .expired :=
  ⟨(token_roundtrip 7 "a@x.com" "secret" 0 3).1 (by decide),
   (token_roundtrip 7 "a@x.com" "secret" 0 sevenDays).2 (by decide)⟩

/-- C8 counterexample: a malformed bearer token is answered with 403
(`Invalid token`), not 401 as the claim states; only a missing token gets
401. -/
theorem auth_malformed_is_403_not_401 :
    authenticateToken (some (.malformed "garbage")) "secret" 0 =
      .respond403 ∧
    AuthOutcome.respond403 ≠ AuthOutcome.respond401 :=
  ⟨rfl, by simp⟩

/-- C8 (amended): an absent token is rejected with 401; a malformed,
unsigned, or expired token is rejected with 403; in every failure case the
protected handler is never reached — it runs exactly when `jwt.verify`
succeeds. -/
theorem auth_rejects_bad_tokens (token : Option Token) (secret : String)
    (now : Nat) :
    (token = none → authenticateToken token secret now = .respond401) ∧
    (∀ t e, token = some t → jwtVerify t secret now = .error e →
      authenticateToken token secret now = .respond403) ∧
    (∀ uid em, authenticateToken token secret now = .proceed uid em →
      ∃ t, token = some t ∧ jwtVerify t secret now = .ok ⟨uid, em⟩) := by
  refine ⟨?_, ?_, ?_⟩
  · intro h
    rw [h]
    rfl
  · intro t e ht he
    rw [ht]
    simp [authenticateToken, he]
  · intro uid em h
    cases ht : token with
    | none => rw [ht] at h; exact AuthOutcome.noConfusion h
    | some t =>
      rw [ht] at h
      unfold authenticateToken at h
      dsimp only at h
      cases hv : jwtVerify t secret now with
      | error e => rw [hv] at h; exact AuthOutcome.noConfusion h
      | ok p =>
        rw [hv] at h
        dsimp only at h
        injection h with h1 h2
        refine ⟨t, rfl, ?_⟩
        rw [hv, ← h1, ← h2]

/-- C8 (amended) witness: an expired signed token gets 403, a missing one
401, and a fresh valid one reaches the handler with its payload. -/
theorem auth_rejects_bad_tokens_witness :
    authenticateToken none "secret" 0 = .respond401 ∧
    authenticateToken (some (issueToken 7 "a@x.com" "secret" 0)) "secret"
      (2 * sevenDays) = .respond403 :=
  ⟨(auth_rejects_bad_tokens none "secret" 0).1 rfl,
   (auth_rejects_bad_tokens (some (issueToken 7 "a@x.com" "secret" 0))
      "secret" (2 * sevenDays)).2.1 _ .expired rfl (by rfl)⟩

/-! ### Branch lemmas for the public verify endpoint -/

theorem verifyInvitation_not_found {db : DBState} {c : String} {now : Nat}
    (hc : c.isEmpty = false) (h : findInvitation db c = none) :
    verifyInvitation db (some c) now = .notFound := by
  simp [verifyInvitation, hc, h]

theorem verifyInvitation_used {db : DBState} {c : String} {now : Nat}
    {inv : Invitation} (hc : c.isEmpty = false)
    (h : findInvitation db c = some inv) (hu : inv.used = true) :
    verifyInvitation db (some c) now = .conflictUsed := by
  simp [verifyInvitation, hc, h, hu]

theorem verifyInvitation_expired {db : DBState} {c : String} {now : Nat}
    {inv : Invitation} {t : Nat} (hc : c.isEmpty = false)
    (h : findInvitation db c = some inv) (hu : inv.used = false)
    (ht : inv.expires_at = some t) (hpast : t < now) :
    verifyInvitation db (some c) now = .goneExpired := by
  simp [verifyInvitation, hc, h, hu, ht, hpast]

theorem verifyInvitation_valid {db : DBState} {c : String} {now : Nat}
    {inv : Invitation} (hc : c.isEmpty = false)
    (h : findInvitation db c = some inv) (hu : inv.used = false)
    (ht : ∀ t, inv.expires_at = some t → now ≤ t) :
    verifyInvitation db (some c) now = .okValid (emailDomain inv.email) := by
  unfold verifyInvitation
  simp only [hc, Bool.false_eq_true, if_false, h, hu]
  cases hx : inv.expires_at with
  | none => simp
  | some t =>
    have := ht t hx
    simp [Nat.not_lt.mpr this]

/-! ### Claim theorems: validation precedence, endpoints, atomicity -/

/-- C3: for every (code, email) pair, redemption validation returns the
first applicable error in the fixed precedence order — unknown code →
INVALID, `used` → ALREADY_USED, `expires_at` strictly in the past →
EXPIRED, bound email differs → EMAIL_MISMATCH — and Ok when none applies.
Each case constrains only the checks before it, so a used-and-expired code
reports ALREADY_USED and an expired code bound to another email reports
EXPIRED. -/
theorem validateForRedemption_precedence (db : DBState) (c email : String)
    (now : Nat) (hc : c.isEmpty = false) :
    (findInvitation db c = none →
      validateForRedemption db (some c) email now = .error .invalid) ∧
    (∀ inv, findInvitation db c = some inv → inv.used = true →
      validateForRedemption db (some c) email now = .error .alreadyUsed) ∧
    (∀ inv t, findInvitation db c = some inv → inv.used = false →
      inv.expires_at = some t → t < now →
      validateForRedemption db (some c) email now = .error .expired) ∧
    (∀ inv, findInvitation db c = some inv → inv.used = false →
      (∀ t, inv.expires_at = some t → now ≤ t) → inv.email ≠ email →
      validateForRedemption db (some c) email now = .error .emailMismatch) ∧
    (∀ inv, findInvitation db c = some inv → inv.used = false →
      (∀ t, inv.expires_at = some t → now ≤ t) → inv.email = email →
      validateForRedemption db (some c) email now = .ok inv) := by
  refine ⟨?_, ?_, ?_, ?_, ?_⟩
  · intro h
    exact validateForRedemption_of_validate_error
      (validateInvitation_not_found hc h)
  · intro inv h hu
    exact validateForRedemption_of_validate_error
      (validateInvitation_used hc h hu)
  · intro inv t h hu hx hp
    exact validateForRedemption_of_validate_error
      (validateInvitation_expired hc h hu hx hp)
  · intro inv h hu hx hne
    exact validateForRedemption_mismatch (validateInvitation_ok hc h hu hx) hne
  · intro inv h hu hx he
    exact validateForRedemption_ok (validateInvitation_ok hc h hu hx) he

/-- C3 witness: in a table with a used-and-expired code `U` and an expired
code `E` bound to `b@y.com`, redeeming `U` reports ALREADY_USED (not
EXPIRED) and redeeming `E` with the wrong email reports EXPIRED (not
EMAIL_MISMATCH). -/
theorem validateForRedemption_precedence_witness :
    validateForRedemption
      ⟨[], [⟨1, "U", "a@x.com", true, some 9, 0, some 10, some 20⟩,
            ⟨2, "E", "b@y.com", false, none, 0, none, some 30⟩], 10, 3⟩
      (some "U") "a@x.com" 100 = .error .alreadyUsed ∧
    validateForRedemption
      ⟨[], [⟨1, "U", "a@x.com", true, some 9, 0, some 10, some 20⟩,
            ⟨2, "E", "b@y.com", false, none, 0, none, some 30⟩], 10, 3⟩
      (some "E") "z@q.com" 100 = .error .expired :=
  ⟨(validateForRedemption_precedence _ "U" "a@x.com" 100 rfl).2.1
      ⟨1, "U", "a@x.com", true, some 9, 0, some 10, some 20⟩ rfl rfl,
   (validateForRedemption_precedence _ "E" "z@q.com" 100 rfl).2.2.1
      ⟨2, "E", "b@y.com", false, none, 0, none, some 30⟩ 30
      rfl rfl rfl (by decide)⟩

/-- C9: `POST /api/verify-invitation` answers 404 `{valid:false}` when no
row matches the code, 409 `{valid:false}` when the code is used, 410
`{valid:false}` when it is expired — the checks applied in that order — and
otherwise 200 `{valid:true, emailDomain}` where `emailDomain` is the part
of the bound email after the first `@`. -/
theorem verifyInvitation_responses (db : DBState) (c : String) (now : Nat)
    (hc : c.isEmpty = false) :
    (findInvitation db c = none →
      verifyInvitation db (some c) now = .notFound) ∧
    (∀ inv, findInvitation db c = some inv → inv.used = true →
      verifyInvitation db (some c) now = .conflictUsed) ∧
    (∀ inv t, findInvitation db c = some inv → inv.used = false →
      inv.expires_at = some t → t < now →
      verifyInvitation db (some c) now = .goneExpired) ∧
    (∀ inv, findInvitation db c = some inv → inv.used = false →
      (∀ t, inv.expires_at = some t → now ≤ t) →
      verifyInvitation db (some c) now = .okValid (emailDomain inv.email)) :=
  ⟨fun h => verifyInvitation_not_found hc h,
   fun _ h hu => verifyInvitation_used hc h hu,
   fun _ _t h hu hx hp => verifyInvitation_expired hc h hu hx hp,
   fun _ h hu hx => verifyInvitation_valid hc h hu hx⟩

/-- C9 witness: the spec's example scenario — a code bound to `b@y.com`
that expired before `now` answers 410, and a fresh code answers 200 with
the domain `y.com`. -/
theorem verifyInvitation_responses_witness :
    verifyInvitation
      ⟨[], [⟨1, "OLD", "b@y.com", false, none, 0, none, some 10⟩,
            ⟨2, "NEW", "b@y.com", false, none, 0, none, some 900⟩], 1, 3⟩
      (some "OLD") 100 = .goneExpired ∧
    verifyInvitation
      ⟨[], [⟨1, "OLD", "b@y.com", false, none, 0, none, some 10⟩,
            ⟨2, "NEW", "b@y.com", false, none, 0, none, some 900⟩], 1, 3⟩
      (some "NEW") 100 = .okValid (some "y.com") :=
  ⟨(verifyInvitation_responses _ "OLD" 100 rfl).2.2.1
      ⟨1, "OLD", "b@y.com", false, none, 0, none, some 10⟩ 10 rfl
      rfl rfl (by decide),
   by
    have := (verifyInvitation_responses
      ⟨[], [⟨1, "OLD", "b@y.com", false, none, 0, none, some 10⟩,
            ⟨2, "NEW", "b@y.com", false, none, 0, none, some 900⟩], 1, 3⟩
      "NEW" 100 rfl).2.2.2
      ⟨2, "NEW", "b@y.com", false, none, 0, none, some 900⟩
      rfl rfl (fun t ht => by injection ht with ht; omega)
    simpa using this⟩

/-- C6 counterexample: an invitation whose `expires_at` equals the current
instant is NOT treated as expired — at `now = 100 = expires_at` redemption
validation succeeds and the public verify endpoint answers 200, so the
boundary is exclusive, not inclusive as claimed (the code tests
`new Date() > new Date(expires_at)` in both places). -/
theorem expiry_boundary_counterexample :
    validateInvitation
      ⟨[], [⟨1, "C", "a@x.com", false, none, 0, none, some 100⟩], 1, 2⟩
      (some "C") 100 =
        .ok ⟨1, "C", "a@x.com", false, none, 0, none, some 100⟩ ∧
    verifyInvitation
      ⟨[], [⟨1, "C", "a@x.com", false, none, 0, none, some 100⟩], 1, 2⟩
      (some "C") 100 = .okValid (some "x.com") :=
  ⟨rfl, rfl⟩

/-- C6 (amended): both expiry checks are exclusive at the boundary: an
unused invitation with `expires_at` exactly equal to the current time
passes the redemption validation and gets 200 from the public
verify-invitation endpoint; it is reported expired only when `now` strictly
exceeds `expires_at`. -/
theorem expiry_boundary_exclusive (db : DBState) (c : String) (now : Nat)
    (inv : Invitation) (hc : c.isEmpty = false)
    (hfind : findInvitation db c = some inv) (hu : inv.used = false)
    (hx : inv.expires_at = some now) :
    validateInvitation db (some c) now = .ok inv ∧
    verifyInvitation db (some c) now = .okValid (emailDomain inv.email) := by
  have hle : ∀ t, inv.expires_at = some t → now ≤ t := by
    intro t ht
    rw [hx] at ht
    injection ht with ht
    omega
  exact ⟨validateInvitation_ok hc hfind hu hle,
         verifyInvitation_valid hc hfind hu hle⟩

/-- C6 (amended) witness: the boundary instant `now = expires_at = 100` on
a concrete one-row table. -/
theorem expiry_boundary_exclusive_witness :
    validateInvitation
      ⟨[], [⟨1, "B", "a@x.com", false, none, 0, none, some 100⟩], 1, 2⟩
      (some "B") 100 =
        .ok ⟨1, "B", "a@x.com", false, none, 0, none, some 100⟩ ∧
    verifyInvitation
      ⟨[], [⟨1, "B", "a@x.com", false, none, 0, none, some 100⟩], 1, 2⟩
      (some "B") 100 = .okValid (emailDomain "a@x.com") :=
  expiry_boundary_exclusive _ "B" 100
    ⟨1, "B", "a@x.com", false, none, 0, none, some 100⟩ rfl rfl rfl rfl

/-- C2: the registration transaction is atomic: an attempt on which a
statement between `BEGIN` and `COMMIT` fails — the user insert (injected
fault or unique-email conflict) or the invitation update — rolls back to
exactly the prior database: no user row is added and the invitation's
`used`/`used_by`/`used_at` are unchanged, and no 201 is returned. -/
theorem register_atomic_rollback (db : DBState) (e p : String)
    (c : Option String) (now : Nat) (fault : Option RegFault)
    (hfail : fault ≠ none ∨ emailTaken db e = true) :
    (register db e p c now fault).1 = db ∧
    ∀ uid em, (register db e p c now fault).2 ≠ .success uid em := by
  rcases register_cases db e p c now fault with ⟨hs, hr⟩ | ⟨inv, -, hfn, hdup, -⟩
  · exact ⟨hs, hr⟩
  · rcases hfail with h | h
    · exact absurd hfn h
    · rw [hdup] at h
      exact Bool.noConfusion h

/-- C2 witness: a fault injected into the invitation update rolls the state
back to exactly the prior database (one valid unused invitation, no user
created). -/
theorem register_atomic_rollback_witness :
    (register ⟨[], [⟨1, "C", "a@x.com", false, none, 0, none, some 100⟩], 1, 2⟩
      "a@x.com" "pw" (some "C") 50 (some .invUpdateFails)).1 =
      ⟨[], [⟨1, "C", "a@x.com", false, none, 0, none, some 100⟩], 1, 2⟩ :=
  (register_atomic_rollback _ "a@x.com" "pw" (some "C") 50
    (some .invUpdateFails) (Or.inl (by decide))).1

/-- C7: when the supplied email already has a `users` row, the registration
transaction aborts with the email-taken 400 (`23505` mapped to
`Email already registered`) and returns the database exactly unchanged — in
particular the invitation's `used`/`used_by`/`used_at` are untouched. -/
theorem register_email_conflict (db : DBState) (e p : String)
    (c : Option String) (now : Nat) (inv : Invitation)
    (hv : validateForRedemption db c e now = .ok inv)
    (htaken : emailTaken db e = true) :
    register db e p c now none = (db, .emailTaken) := by
  unfold register
  rw [hv]
  dsimp only
  simp [htaken]

/-- C7 witness: registering `a@x.com` against a valid invitation when a
user with that email already exists answers EMAIL_TAKEN and changes
nothing. -/
theorem register_email_conflict_witness :
    register
      ⟨[⟨7, "a@x.com", "h", 0⟩],
       [⟨1, "C", "a@x.com", false, none, 0, none, some 100⟩], 8, 2⟩
      "a@x.com" "pw" (some "C") 50 none =
      (⟨[⟨7, "a@x.com", "h", 0⟩],
        [⟨1, "C", "a@x.com", false, none, 0, none, some 100⟩], 8, 2⟩,
       .emailTaken) :=
  register_email_conflict _ "a@x.com" "pw" (some "C") 50
    ⟨1, "C", "a@x.com", false, none, 0, none, some 100⟩ rfl rfl

/-- Two rows of a table whose ids are pairwise distinct that share an id
are the same row. -/
theorem same_row_of_same_id {db : DBState}
    (hnodup : (db.invitations.map Invitation.id).Nodup)
    {inv inv' : Invitation} (hmem : inv ∈ db.invitations)
    (hmem' : inv' ∈ db.invitations) (hid : inv'.id = inv.id) : inv' = inv :=
  List.inj_on_of_nodup_map hnodup hmem' hmem hid

/-- C1: the single-use invariant of invitation codes on every database
state reachable from the freshly initialised store: (i) `used_by` and
`used_at` are set exactly when `used` is true; (ii) every operation moves a
row's `used` flag only from false to true, never back, and such a flip
happens only during a registration that answers 201 (successful
registration); (iii) a freshly created code has `used = false` with
`used_by` and `used_at` null. -/
theorem invitation_lifecycle (db : DBState) (hdb : Reachable db) :
    (∀ inv ∈ db.invitations,
      inv.used_by.isSome = inv.used ∧ inv.used_at.isSome = inv.used) ∧
    (∀ op inv inv', inv ∈ db.invitations →
      inv' ∈ (runOp op db).1.invitations → inv'.id = inv.id →
      (inv.used = true → inv'.used = true) ∧
      (inv.used = false → inv'.used = true →
        ∃ e p c now fault uid, op = Op.register e p c now fault ∧
          (runOp op db).2 = .regResp (.success uid e))) ∧
    (∀ ok c e d now inv,
      (runOp (.adminCreate ok c e d now) db).2 =
        .createResp (.created inv) →
      inv.used = false ∧ inv.used_by = none ∧ inv.used_at = none) := by
  obtain ⟨hused, hnodup, hlt⟩ := reachable_wf hdb
  refine ⟨fun inv h => hused inv h, ?_, ?_⟩
  · intro op inv inv' hmem hmem' hid
    cases op with
    | adminCreate ok c e d now =>
      dsimp only [runOp] at hmem'
      rcases adminCreate_cases db ok c e d now with ⟨hs, -⟩ | ⟨cs, es, -, -, hs⟩
      · rw [hs] at hmem'
        have heq := same_row_of_same_id hnodup hmem hmem' hid
        refine ⟨fun ht => by rw [heq]; exact ht, fun hf ht => ?_⟩
        rw [heq, hf] at ht
        exact Bool.noConfusion ht
      · rw [hs] at hmem'
        dsimp only at hmem'
        rcases List.mem_append.mp hmem' with h | h
        · have heq := same_row_of_same_id hnodup hmem h hid
          refine ⟨fun ht => by rw [heq]; exact ht, fun hf ht => ?_⟩
          rw [heq, hf] at ht
          exact Bool.noConfusion ht
        · simp only [List.mem_singleton] at h
          subst h
          exfalso
          have h1 := hlt inv hmem
          rw [← hid] at h1
          simp only [newInvitation] at h1
          omega
    | register e p c now fault =>
      dsimp only [runOp] at hmem'
      rcases register_cases db e p c now fault with ⟨hs, -⟩ | ⟨rinv, -, -, -, hs⟩
      · rw [hs] at hmem'
        have heq := same_row_of_same_id hnodup hmem hmem' hid
        refine ⟨fun ht => by rw [heq]; exact ht, fun hf ht => ?_⟩
        rw [heq, hf] at ht
        exact Bool.noConfusion ht
      · rw [hs] at hmem'
        dsimp only at hmem'
        obtain ⟨inv0, hmem0, heq0⟩ := mem_markUsed hmem'
        have hid0 : inv0.id = inv.id := by
          rw [← hid, heq0]
          split <;> rfl
        have heq := same_row_of_same_id hnodup hmem hmem0 hid0
        subst heq
        constructor
        · intro ht
          rw [heq0]
          split
          · rfl
          · exact ht
        · intro hf ht
          refine ⟨e, p, c, now, fault, db.nextUserId, rfl, ?_⟩
          dsimp only [runOp]
          rw [hs]
    | verifyInv c now =>
      dsimp only [runOp] at hmem'
      have heq := same_row_of_same_id hnodup hmem hmem' hid
      refine ⟨fun ht => by rw [heq]; exact ht, fun hf ht => ?_⟩
      rw [heq, hf] at ht
      exact Bool.noConfusion ht
    | adminList ok now =>
      dsimp only [runOp] at hmem'
      have heq := same_row_of_same_id hnodup hmem hmem' hid
      refine ⟨fun ht => by rw [heq]; exact ht, fun hf ht => ?_⟩
      rw [heq, hf] at ht
      exact Bool.noConfusion ht
  · intro ok c e d now inv hres
    dsimp only [runOp] at hres
    rcases adminCreate_cases db ok c e d now with ⟨-, hr⟩ | ⟨cs, es, -, -, hs⟩
    · exfalso
      injection hres with hres
      exact hr inv hres
    · rw [hs] at hres
      dsimp only at hres
      injection hres with hres
      injection hres with hres
      rw [← hres]
      exact ⟨rfl, rfl, rfl⟩

/-- C1 witness: the row created by one admin creation from the empty
database satisfies `used_by.isSome = used` and `used_at.isSome = used`
(all false). -/
theorem invitation_lifecycle_witness :
    (⟨1, "C", "a@x.com", false, none, 0, none,
        some 2592000000⟩ : Invitation).used_by.isSome =
      (⟨1, "C", "a@x.com", false, none, 0, none,
        some 2592000000⟩ : Invitation).used ∧
    (⟨1, "C", "a@x.com", false, none, 0, none,
        some 2592000000⟩ : Invitation).used_at.isSome =
      (⟨1, "C", "a@x.com", false, none, 0, none,
        some 2592000000⟩ : Invitation).used :=
  (invitation_lifecycle _
    (Reachable.step (Op.adminCreate true (some "C") (some "a@x.com") 30 0)
      Reachable.init)).1
    ⟨1, "C", "a@x.com", false, none, 0, none, some 2592000000⟩ (by decide)

/-! ### Helper lemmas for the concurrent model -/

theorem length_filter_set {α : Type} (q : α → Bool) :
    ∀ (l : List α) (i : Nat) (a b : α), l[i]? = some a →
      ((l.set i b).filter q).length + (if q a then 1 else 0) =
        (l.filter q).length + (if q b then 1 else 0) := by
  intro l
  induction l with
  | nil =>
    intro i a b h
    simp at h
  | cons x xs ih =>
    intro i a b h
    cases i with
    | zero =>
      rw [List.getElem?_cons_zero] at h
      injection h with h
      subst h
      rw [List.set_cons_zero, List.filter_cons, List.filter_cons]
      cases hqx : q x <;> cases hqb : q b <;> simp [hqx, hqb]
    | succ i =>
      rw [List.getElem?_cons_succ] at h
      rw [List.set_cons_succ, List.filter_cons, List.filter_cons]
      have hih := ih i a b h
      cases hqx : q x <;> simp [hqx] <;> omega

theorem find?_markUsed (invs : List Invitation) (invId uid now : Nat)
    (code : String) :
    List.find? (fun r => r.code = code) (markUsed invs invId uid now) =
      (List.find? (fun r => r.code = code) invs).map (fun r =>
        if r.id = invId then
          { r with used := true, used_by := some uid, used_at := some now }
        else r) := by
  unfold markUsed
  rw [List.find?_map]
  have hp : ((fun r : Invitation => decide (r.code = code)) ∘ fun inv =>
      if inv.id = invId then
        { inv with used := true, used_by := some uid, used_at := some now }
      else inv) = fun r : Invitation => decide (r.code = code) := by
    funext r
    by_cases h : r.id = invId <;> simp [Function.comp, h]
  rw [hp]

theorem emailTaken_append_one (db : DBState) (u : User) (rest : DBState)
    (e : String) (h : rest.users = db.users ++ [u]) :
    emailTaken rest e = (emailTaken db e || (u.email = e)) := by
  simp [emailTaken, h, List.any_append]

theorem filter_partition_phases :
    ∀ l : List Phase,
      (∀ p ∈ l, p = Phase.doneSuccess ∨ p = Phase.doneFail) →
      (l.filter (fun p => p = Phase.doneSuccess)).length +
        (l.filter (fun p => p = Phase.doneFail)).length = l.length := by
  intro l
  induction l with
  | nil =>
    intro
    rfl
  | cons x xs ih =>
    intro h
    have hx := h x (List.mem_cons_self x xs)
    have hxs := ih fun p hp => h p (List.mem_cons_of_mem x hp)
    rcases hx with hx | hx <;> subst hx <;>
      simp [List.filter_cons] <;> omega

theorem concInv_start (db0 : DBState) (code : String) (inv0 : Invitation)
    (n : Nat) (hfind : findInvitation db0 code = some inv0)
    (hunused : inv0.used = false)
    (hfree : emailTaken db0 inv0.email = false) :
    ConcInv code inv0 n (ConcState.start db0 n) := by
  refine ⟨List.length_replicate n _, ⟨inv0, hfind, rfl, rfl, rfl, ?_⟩, ?_, ?_⟩
  · show inv0.used = emailTaken db0 inv0.email
    rw [hunused, hfree]
  · show successCount ⟨db0, List.replicate n .ready⟩ =
      if emailTaken db0 inv0.email then 1 else 0
    rw [hfree]
    unfold successCount
    simp [List.filter_replicate]
  · intro i p hp
    show (p = Phase.doneFail → emailTaken db0 inv0.email = true) ∧
      (∀ s, p = Phase.validated s → s.id = inv0.id)
    have hp' : (List.replicate n Phase.ready)[i]? = some p := hp
    rw [List.getElem?_replicate] at hp'
    split at hp'
    · injection hp' with hp'
      subst hp'
      exact ⟨fun h => Phase.noConfusion h, fun s h => Phase.noConfusion h⟩
    · exact Option.noConfusion hp'

/-- Preservation of `ConcInv` by a step that only rewrites one phase slot
(no database change) from a non-successful phase to a non-successful
phase. -/
theorem concInv_set_aux {code : String} {inv0 : Invitation} {n : Nat}
    {cs : ConcState} (np : Phase) (i : Nat) (p0 : Phase)
    (hp0 : cs.phases[i]? = some p0)
    (hq0 : p0 ≠ Phase.doneSuccess) (hqn : np ≠ Phase.doneSuccess)
    (hfail : np = Phase.doneFail → emailTaken cs.db inv0.email = true)
    (hvalid : ∀ s, np = Phase.validated s → s.id = inv0.id)
    (hinv : ConcInv code inv0 n cs) :
    ConcInv code inv0 n { cs with phases := cs.phases.set i np } := by
  obtain ⟨hlen, hrow, hcount, hph⟩ := hinv
  refine ⟨?_, hrow, ?_, ?_⟩
  · show (cs.phases.set i np).length = n
    rw [List.length_set]
    exact hlen
  · have hls := length_filter_set (fun p => decide (p = Phase.doneSuccess))
      cs.phases i p0 np hp0
    simp only [decide_eq_true_eq] at hls
    rw [if_neg hq0, if_neg hqn] at hls
    have hls' : ((cs.phases.set i np).filter
        (fun p => decide (p = Phase.doneSuccess))).length =
      (cs.phases.filter (fun p => decide (p = Phase.doneSuccess))).length := by
      omega
    show ((cs.phases.set i np).filter
      (fun p => decide (p = Phase.doneSuccess))).length = _
    rw [hls']
    exact hcount
  · intro j p hj
    dsimp only at hj
    rw [List.getElem?_set] at hj
    by_cases hij : i = j
    · rw [if_pos hij] at hj
      split at hj
      · injection hj with hj
        subst hj
        exact ⟨hfail, hvalid⟩
      · exact Option.noConfusion hj
    · rw [if_neg hij] at hj
      exact hph j p hj

/-- Preservation of `ConcInv` by a committing transaction: one user row
carrying the bound email is appended, the snapshotted invitation row is
marked used, and the request's phase becomes a 201. -/
theorem concInv_commitOk_aux (code : String) (inv0 : Invitation) (n : Nat)
    (db : DBState) (phases : List Phase) (i : Nat) (invSnap : Invitation)
    (u : User) (tnow : Nat)
    (hinv : ConcInv code inv0 n ⟨db, phases⟩)
    (hvld : phases[i]? = some (Phase.validated invSnap))
    (hue : u.email = inv0.email)
    (hdup : emailTaken db inv0.email = false) :
    ConcInv code inv0 n
      (ConcState.mk
        { db with
          users := db.users ++ [u],
          invitations := markUsed db.invitations invSnap.id db.nextUserId tnow,
          nextUserId := db.nextUserId + 1 }
        (phases.set i Phase.doneSuccess)) := by
  obtain ⟨hlen, ⟨r, hfind, hrid, hremail, hrexp, hrused⟩, hcount, hph⟩ := hinv
  have hsnap : invSnap.id = inv0.id := (hph i _ hvld).2 invSnap rfl
  have hTaken : (db.users ++ [u]).any
      (fun v => decide (v.email = inv0.email)) = true := by
    rw [List.any_append]
    have hdup' : db.users.any (fun v => decide (v.email = inv0.email)) = false :=
      hdup
    rw [hdup']
    simp [hue]
  refine ⟨?_, ?_, ?_, ?_⟩
  · show (phases.set i Phase.doneSuccess).length = n
    rw [List.length_set]
    exact hlen
  · refine ⟨{ r with
        used := true
        used_by := some db.nextUserId
        used_at := some tnow }, ?_, hrid, hremail, hrexp, ?_⟩
    · show List.find? (fun x => decide (x.code = code))
        (markUsed db.invitations invSnap.id db.nextUserId tnow) = _
      rw [find?_markUsed]
      have hfind' : List.find? (fun x => decide (x.code = code))
          db.invitations = some r := hfind
      rw [hfind']
      simp only [Option.map_some']
      rw [if_pos (hrid.trans hsnap.symm)]
    · exact hTaken.symm
  · have hls := length_filter_set (fun p => decide (p = Phase.doneSuccess))
      phases i (Phase.validated invSnap) Phase.doneSuccess hvld
    simp only [decide_eq_true_eq] at hls
    rw [if_neg (fun h => Phase.noConfusion h)] at hls
    rw [if_pos trivial] at hls
    have hc0 : (phases.filter (fun p => decide (p = Phase.doneSuccess))).length
        = 0 := by
      have hc := hcount
      unfold successCount at hc
      dsimp only at hc
      rw [hdup] at hc
      simpa using hc
    show ((phases.set i Phase.doneSuccess).filter
        (fun p => decide (p = Phase.doneSuccess))).length =
      if (db.users ++ [u]).any (fun v => decide (v.email = inv0.email)) = true
      then 1 else 0
    rw [hTaken, if_pos rfl]
    omega
  · intro j p hj
    dsimp only at hj
    rw [List.getElem?_set] at hj
    by_cases hij : i = j
    · rw [if_pos hij] at hj
      split at hj
      · injection hj with hj
        subst hj
        exact ⟨fun h => Phase.noConfusion h, fun s h => Phase.noConfusion h⟩
      · exact Option.noConfusion hj
    · rw [if_neg hij] at hj
      exact ⟨fun _ => hTaken, (hph j p hj).2⟩

/-- `ConcInv` is preserved by every interleaving step, given that the run
targets an unexpired invitation, every request supplies the bound email,
and that email is initially free. -/
theorem concInv_step {code : String} {emails pwds : Nat → String}
    {now : Nat} {inv0 : Invitation} {n : Nat}
    (hc : code.isEmpty = false)
    (hemails : ∀ i, i < n → emails i = inv0.email)
    (hfresh : ∀ t, inv0.expires_at = some t → now ≤ t)
    {cs cs' : ConcState}
    (hstep : CStep code emails pwds now cs cs')
    (hinv : ConcInv code inv0 n cs) : ConcInv code inv0 n cs' := by
  obtain ⟨hlen, ⟨r, hfind, hrid, hremail, hrexp, hrused⟩, hcount, hph⟩ := hinv
  cases hstep with
  | validate i hready =>
    have hin : i < n := by
      rw [← hlen]
      exact (List.getElem?_eq_some.mp hready).1
    have hie : emails i = inv0.email := hemails i hin
    cases hru : r.used with
    | false =>
      have hexp : ∀ t, r.expires_at = some t → now ≤ t := by
        intro t ht
        rw [hrexp] at ht
        exact hfresh t ht
      have hem : r.email = emails i := by rw [hremail, hie]
      have hV : validateForRedemption cs.db (some code) (emails i) now =
          .ok r :=
        validateForRedemption_ok (validateInvitation_ok hc hfind hru hexp) hem
      rw [hV]
      exact concInv_set_aux (Phase.validated r) i Phase.ready hready
        (fun h => Phase.noConfusion h) (fun h => Phase.noConfusion h)
        (fun h => Phase.noConfusion h)
        (fun s hs => by injection hs with hs; rw [← hs]; exact hrid)
        ⟨hlen, ⟨r, hfind, hrid, hremail, hrexp, hrused⟩, hcount, hph⟩
    | true =>
      have hV : validateForRedemption cs.db (some code) (emails i) now =
          .error RedeemErr.alreadyUsed :=
        validateForRedemption_of_validate_error
          (validateInvitation_used hc hfind hru)
      rw [hV]
      exact concInv_set_aux Phase.doneFail i Phase.ready hready
        (fun h => Phase.noConfusion h) (fun h => Phase.noConfusion h)
        (fun _ => hrused.symm.trans hru) (fun s hs => Phase.noConfusion hs)
        ⟨hlen, ⟨r, hfind, hrid, hremail, hrexp, hrused⟩, hcount, hph⟩
  | commitFail i inv hvld hdup =>
    have hin : i < n := by
      rw [← hlen]
      exact (List.getElem?_eq_some.mp hvld).1
    have het : emailTaken cs.db inv0.email = true := by
      rw [← hemails i hin]
      exact hdup
    exact concInv_set_aux Phase.doneFail i (Phase.validated inv) hvld
      (fun h => Phase.noConfusion h) (fun h => Phase.noConfusion h)
      (fun _ => het) (fun s hs => Phase.noConfusion hs)
      ⟨hlen, ⟨r, hfind, hrid, hremail, hrexp, hrused⟩, hcount, hph⟩
  | commitOk i inv hvld hdup =>
    have hin : i < n := by
      rw [← hlen]
      exact (List.getElem?_eq_some.mp hvld).1
    have hie : emails i = inv0.email := hemails i hin
    have hdup0 : emailTaken cs.db inv0.email = false := by
      rw [← hie]
      exact hdup
    exact concInv_commitOk_aux code inv0 n cs.db cs.phases i inv
      ⟨cs.db.nextUserId, emails i, bcryptHash (pwds i), now⟩ now
      ⟨hlen, ⟨r, hfind, hrid, hremail, hrexp, hrused⟩, hcount, hph⟩
      hvld hie hdup0

/-- `ConcInv` holds of every reachable state of the concurrent runs. -/
theorem concInv_reach {code : String} {emails pwds : Nat → String}
    {now : Nat} {db0 : DBState} {inv0 : Invitation} {n : Nat}
    (hc : code.isEmpty = false)
    (hfind : findInvitation db0 code = some inv0)
    (hunused : inv0.used = false)
    (hfree : emailTaken db0 inv0.email = false)
    (hemails : ∀ i, i < n → emails i = inv0.email)
    (hfresh : ∀ t, inv0.expires_at = some t → now ≤ t)
    {cs : ConcState}
    (hreach : CReach code emails pwds now db0 n cs) :
    ConcInv code inv0 n cs := by
  induction hreach with
  | start => exact concInv_start db0 code inv0 n hfind hunused hfree
  | step hr hs ih => exact concInv_step hc hemails hfresh hs ih

/-- C4: for every number `n` of simultaneous registration attempts using
the same unused, unexpired invitation code — each supplying the bound
email, which no existing user carries — every complete interleaving of the
attempts ends with exactly one successful registration and `n − 1`
failures (ALREADY_USED at validation or the unique-email conflict at
commit); never are two users created against one code. -/
theorem concurrent_registration_single_success
    (db0 : DBState) (code : String) (inv0 : Invitation)
    (emails pwds : Nat → String) (n now : Nat) (cs : ConcState)
    (hc : code.isEmpty = false)
    (hfind : findInvitation db0 code = some inv0)
    (hunused : inv0.used = false)
    (hfresh : ∀ t, inv0.expires_at = some t → now ≤ t)
    (hemails : ∀ i, i < n → emails i = inv0.email)
    (hfree : emailTaken db0 inv0.email = false)
    (hn : 1 ≤ n)
    (hreach : CReach code emails pwds now db0 n cs)
    (hdone : ∀ p ∈ cs.phases, p = Phase.doneSuccess ∨ p = Phase.doneFail) :
    successCount cs = 1 ∧ failCount cs = n - 1 := by
  obtain ⟨hlen, -, hcount, hph⟩ :=
    concInv_reach hc hfind hunused hfree hemails hfresh hreach
  have hpart := filter_partition_phases cs.phases hdone
  have hsucc : successCount cs = 1 := by
    cases het : emailTaken cs.db inv0.email with
    | true =>
      rw [het] at hcount
      simpa using hcount
    | false =>
      exfalso
      have h0 : 0 < cs.phases.length := by omega
      have hp0 := List.getElem?_eq_getElem h0
      have hmem0 := List.getElem_mem h0
      rcases hdone _ hmem0 with hd | hd
      · have hmemS : Phase.doneSuccess ∈
            cs.phases.filter (fun p => decide (p = Phase.doneSuccess)) :=
          List.mem_filter.mpr ⟨hd ▸ hmem0, by simp⟩
        have hpos := List.length_pos_of_mem hmemS
        rw [het] at hcount
        simp only [Bool.false_eq_true, if_false] at hcount
        unfold successCount at hcount
        omega
      · have hbad := (hph 0 _ hp0).1 hd
        rw [het] at hbad
        exact Bool.noConfusion hbad
  refine ⟨hsucc, ?_⟩
  unfold successCount at hsucc
  unfold failCount
  omega

/-- C4 witness: two attempts with code `C`, interleaved
validate-0, validate-1, commit-0, commit-1: the run ends with exactly one
201 and one failure. -/
theorem concurrent_registration_single_success_witness :
    successCount
      ⟨⟨[⟨1, "a@x.com", bcryptHash "pw", 50⟩],
        [⟨1, "C", "a@x.com", true, some 1, 0, some 50, some 100⟩], 2, 2⟩,
       [Phase.doneSuccess, Phase.doneFail]⟩ = 1 ∧
    failCount
      ⟨⟨[⟨1, "a@x.com", bcryptHash "pw", 50⟩],
        [⟨1, "C", "a@x.com", true, some 1, 0, some 50, some 100⟩], 2, 2⟩,
       [Phase.doneSuccess, Phase.doneFail]⟩ = 2 - 1 :=
  concurrent_registration_single_success
    ⟨[], [⟨1, "C", "a@x.com", false, none, 0, none, some 100⟩], 1, 2⟩
    "C" ⟨1, "C", "a@x.com", false, none, 0, none, some 100⟩
    (fun _ => "a@x.com") (fun _ => "pw") 2 50
    ⟨⟨[⟨1, "a@x.com", bcryptHash "pw", 50⟩],
      [⟨1, "C", "a@x.com", true, some 1, 0, some 50, some 100⟩], 2, 2⟩,
     [Phase.doneSuccess, Phase.doneFail]⟩
    rfl rfl rfl (fun t ht => by injection ht with ht; omega)
    (fun _ _ => rfl) rfl (by decide)
    (CReach.step
      (CReach.step
        (CReach.step
          (CReach.step CReach.start (CStep.validate _ 0 rfl))
          (CStep.validate _ 1 rfl))
        (CStep.commitOk _ 0
          ⟨1, "C", "a@x.com", false, none, 0, none, some 100⟩ rfl rfl))
      (CStep.commitFail _ 1
        ⟨1, "C", "a@x.com", false, none, 0, none, some 100⟩ rfl rfl))
    (by decide)

end PortfolioTracker
